import Mathlib

/- Verification development for the MedGemma intake-demo frontend.

   The subject is the Interview component (src/unnamed/part_003): the
   streamed-conversation playback engine (stream ingestor, playback queue /
   sequencer, report revision tracker) and its HTML diff routine
   `getDiffReport`.

   Shallow embedding conventions:
   * The React component's mutable refs and state hooks become the fields of
     an explicit `SessionState` record; every event-loop callback (stream
     frame, timer expiry, audio ended/errored, user toggles) becomes a total
     function on that record, and a session execution is a fold (`run`) over
     a list of such signals.  This matches the single-threaded, cooperative
     event-loop concurrency model of the browser.
   * External JavaScript facilities that the component calls are modelled
     with explicit Lean counterparts: the `diff` npm library's `diffArrays`
     and `diffWords` as a shortest-edit-script diff over token lists (removed
     runs emitted before added runs, adjacent same-kind entries merged, as
     that library does); `String.prototype.trim` as dropping leading and
     trailing whitespace; the `marked` markdown renderer as an abstract
     function parameter `md : String → String`; `Audio` elements as ids with
     a set of currently-playing ids; `EventSource` as an open/closed flag.
-/

/- ### Data model: ConversationEvent (spec section 3)

   One stream payload: `{ speaker, text, audio? }`.  `audio` is an optional
   URL / data-URI; JavaScript truthiness of `nextMessage.audio` means the
   field is present and non-empty. -/

structure ConversationEvent where
  speaker : String
  text : String
  audio : Option String
deriving DecidableEq

/- JS truthiness of `nextMessage.audio` (part_003 line 161). -/
def hasAudio (e : ConversationEvent) : Bool :=
  match e.audio with
  | some u => u != ""
  | none => false

/- ### Model of the `diff` npm library (external dependency of part_003)

   `diffArrays` / `diffWords` compute a shortest edit script between two
   token sequences and report it as a list of hunks, each a run of tokens
   that is unchanged, added, or removed; in a replacement region the removed
   run precedes the added run, and adjacent hunks of the same kind are
   merged. -/

inductive DiffOp (α : Type) where
  | keep (a : α)
  | del (a : α)
  | ins (a : α)
deriving DecidableEq

def diffOpCost {α : Type} : DiffOp α → Nat
  | .keep _ => 0
  | .del _ => 1
  | .ins _ => 1

def scriptCost {α : Type} (l : List (DiffOp α)) : Nat :=
  (l.map diffOpCost).sum

/- Shortest edit script between two lists, preferring deletions first on
   ties (the removed-before-added hunk order the diff library produces).
   Written with explicit fuel (the combined length bounds the recursion
   depth) so the definition evaluates by kernel reduction. -/
def diffOpsAux {α : Type} [DecidableEq α] : Nat → List α → List α → List (DiffOp α)
  | 0, _, _ => []
  | _ + 1, [], [] => []
  | fuel + 1, [], b :: bs => .ins b :: diffOpsAux fuel [] bs
  | fuel + 1, a :: as, [] => .del a :: diffOpsAux fuel as []
  | fuel + 1, a :: as, b :: bs =>
    if a = b then
      .keep a :: diffOpsAux fuel as bs
    else
      let d1 := diffOpsAux fuel (a :: as) bs
      let d2 := diffOpsAux fuel as (b :: bs)
      if scriptCost d2 ≤ scriptCost d1 then .del a :: d2 else .ins b :: d1

def diffOps {α : Type} [DecidableEq α] (l1 l2 : List α) : List (DiffOp α) :=
  diffOpsAux (l1.length + l2.length) l1 l2

/- One hunk of a diff result: `{value, added?, removed?}`. -/
structure DiffHunk (α : Type) where
  value : List α
  added : Bool
  removed : Bool
deriving DecidableEq

def opHunk {α : Type} : DiffOp α → DiffHunk α
  | .keep a => ⟨[a], false, false⟩
  | .del a => ⟨[a], false, true⟩
  | .ins a => ⟨[a], true, false⟩

/- Merge per-element edit ops into maximal same-kind runs. -/
def groupOps {α : Type} : List (DiffOp α) → List (DiffHunk α)
  | [] => []
  | op :: rest =>
    match groupOps rest with
    | [] => [opHunk op]
    | h :: t =>
      if (opHunk op).added = h.added ∧ (opHunk op).removed = h.removed then
        ⟨(opHunk op).value ++ h.value, h.added, h.removed⟩ :: t
      else
        opHunk op :: h :: t

/- `diffArrays(tokensPrev, tokensCurrent)` of the diff library. -/
def diffArrays (l1 l2 : List String) : List (DiffHunk String) :=
  groupOps (diffOps l1 l2)

/- Whitespace class used by the word splitter and by the trim model
   (space, tab, line feed, carriage return, vertical tab, form feed,
   no-break space). -/
def isJsWs (c : Char) : Bool :=
  c == ' ' || c == '\t' || c == '\n' || c == '\r' ||
  c == Char.ofNat 11 || c == Char.ofNat 12 || c == Char.ofNat 160

/- Word/whitespace tokenizer feeding the word-level diff: maximal runs of
   same whitespace-class characters. -/
def splitWordsAux : Nat → List Char → List (List Char)
  | 0, _ => []
  | _ + 1, [] => []
  | fuel + 1, c :: cs =>
    ((c :: cs).takeWhile (fun x => isJsWs x == isJsWs c)) ::
      splitWordsAux fuel ((c :: cs).dropWhile (fun x => isJsWs x == isJsWs c))

def splitWords (s : String) : List String :=
  (splitWordsAux s.data.length s.data).map String.mk

/- One part of a `diffWords` result: `{value, added?, removed?}` with the
   run already joined back into a string. -/
structure WordPart where
  value : String
  added : Bool
  removed : Bool
deriving DecidableEq

/- `diffWords(removedText, addedText)` of the diff library. -/
def diffWords (a b : String) : List WordPart :=
  (groupOps (diffOps (splitWords a) (splitWords b))).map
    (fun h => ⟨String.join h.value, h.added, h.removed⟩)

/- ### getDiffReport (part_003 lines 303-350) -/

/- `tokenizeHTML = (html) => html.match(/(<[^>]+>|[^<]+)/g) || []`
   (part_003 line 305).  The scanner semantics of that global regex: at a
   `<`, try to match a complete `<[^>]+>` tag (at least one non-`>`
   character, then `>`); otherwise the `<` matches neither alternative and
   is skipped; at any other character, take the maximal run of non-`<`
   characters. -/
def takeUntilGt : List Char → Option (List Char × List Char)
  | [] => none
  | c :: cs =>
    if c = '>' then some ([], cs)
    else
      match takeUntilGt cs with
      | some (b, rest) => some (c :: b, rest)
      | none => none

def tokHTMLAux : Nat → List Char → List (List Char)
  | 0, _ => []
  | _ + 1, [] => []
  | fuel + 1, '<' :: cs =>
    match takeUntilGt cs with
    | some (b, rest) =>
      if b = [] then tokHTMLAux fuel cs
      else ('<' :: (b ++ ['>'])) :: tokHTMLAux fuel rest
    | none => tokHTMLAux fuel cs
  | fuel + 1, c :: cs =>
    ((c :: cs).takeWhile (fun x => x != '<')) ::
      tokHTMLAux fuel ((c :: cs).dropWhile (fun x => x != '<'))

def tokenizeHTML (s : String) : List String :=
  (tokHTMLAux s.data.length s.data).map String.mk

/- The anchored test `/^<[^>]+>$/.test(s)` (part_003 line 323). -/
def gtEnd : List Char → Bool
  | [] => false
  | ['>'] => true
  | c :: cs => if c = '>' then false else gtEnd cs

def isBareTag (s : String) : Bool :=
  match s.data with
  | '<' :: c :: cs => if c = '>' then false else gtEnd (c :: cs)
  | _ => false

def spanAdd (v : String) : String :=
  "<span class=\"add\">" ++ v ++ "</span>"

def spanRemove (v : String) : String :=
  "<span class=\"remove\">" ++ v ++ "</span>"

/- The `.map(...)` over the inner `diffWords` result (part_003 lines
   326-335). -/
def renderWordParts (parts : List WordPart) : String :=
  String.join (parts.map (fun part =>
    if part.added then spanAdd part.value
    else if part.removed then spanRemove part.value
    else part.value))

/- The indexed loop over `diffParts` (part_003 lines 311-348): a removed
   hunk immediately followed by an added hunk, neither of which is a bare
   tag, is refined with a word-level diff and both hunks are consumed;
   otherwise each hunk is wrapped (added/removed) or passed through
   (unchanged). -/
def renderDiffParts : List (DiffHunk String) → String
  | [] => ""
  | [p] =>
    if p.removed then spanRemove (String.join p.value)
    else if p.added then spanAdd (String.join p.value)
    else String.join p.value
  | p :: q :: rest2 =>
    if p.removed then
      if q.added then
        if ¬isBareTag (String.join p.value) ∧ ¬isBareTag (String.join q.value) then
          renderWordParts (diffWords (String.join p.value) (String.join q.value)) ++
            renderDiffParts rest2
        else
          spanRemove (String.join p.value) ++ renderDiffParts (q :: rest2)
      else
        spanRemove (String.join p.value) ++ renderDiffParts (q :: rest2)
    else if p.added then
      spanAdd (String.join p.value) ++ renderDiffParts (q :: rest2)
    else
      String.join p.value ++ renderDiffParts (q :: rest2)

/- `getDiffReport` (part_003 lines 303-350), as a pure function of the two
   stored report revisions. -/
def getDiffReport (prevReport currentReport : String) : String :=
  renderDiffParts (diffArrays (tokenizeHTML prevReport) (tokenizeHTML currentReport))

/- ### Report revision tracker (part_003 lines 289-300)

   `String.prototype.trim` is modelled as dropping the maximal whitespace
   prefix and suffix; the `marked` markdown renderer is kept abstract as a
   function parameter `md`. -/

def trimRightWs : List Char → List Char
  | [] => []
  | c :: cs =>
    match trimRightWs cs with
    | [] => if isJsWs c then [] else [c]
    | r => c :: r

def jsTrim (l : List Char) : List Char :=
  trimRightWs (l.dropWhile isJsWs)

def jsTrimStr (s : String) : String :=
  String.mk (jsTrim s.data)

/- `marked(latestReportMessageText.trim())` (part_003 line 294). -/
def renderReport (md : String → String) (t : String) : String :=
  md (jsTrimStr t)

/- `messages.filter((msg) => msg.speaker === "report")` and its last element
   (part_003 lines 290-293). -/
def lastReportMessage (messages : List ConversationEvent) : Option ConversationEvent :=
  (messages.filter (fun m => m.speaker == "report")).getLast?

/- The report-update effect body (part_003 lines 289-300): returns the new
   `(currentReport, prevReport)` pair. -/
def reportUpdate (md : String → String) (messages : List ConversationEvent)
    (currentReport prevReport : String) : String × String :=
  match lastReportMessage messages with
  | none => (currentReport, prevReport)
  | some m =>
    let newReport := renderReport md m.text
    if newReport ≠ currentReport then (newReport, currentReport)
    else (currentReport, prevReport)

/- ### The playback engine state (part_003 lines 113-258)

   `SessionState` gathers the component state and refs the engine reads and
   writes:
   * `messages`        — the `messages` state (DisplayedMessages);
   * `queue`           — `messageQueue.current` (PlaybackQueue);
   * `isInterviewComplete` — the completion flag;
   * `timeoutActive`   — whether `timeoutIdRef.current` holds a live timer;
   * `currentAudio`    — `currentPlayingAudio.current`, as the id of the
                         tracked audio element, if any;
   * `playingIds`      — ids of audio elements currently in a playing state
                         (a paused, errored, or finished element leaves it);
   * `nextAudioId`     — id supply for `new Audio(...)`;
   * `channelClosed`   — `eventSourceRef.current.readyState === CLOSED`;
   * `isAudioEnabled`  — `isAudioEnabledRef.current`;
   * `waitTime`        — `waitTimeRef.current`. -/

structure SessionState where
  messages : List ConversationEvent
  queue : List ConversationEvent
  isInterviewComplete : Bool
  timeoutActive : Bool
  currentAudio : Option Nat
  playingIds : List Nat
  nextAudioId : Nat
  channelClosed : Bool
  isAudioEnabled : Bool
  waitTime : Nat
deriving DecidableEq

/- `currentPlayingAudio.current.pause()` when the ref is non-null: the
   tracked element leaves the playing state. -/
def pausedIds (s : SessionState) : List Nat :=
  match s.currentAudio with
  | some i => s.playingIds.erase i
  | none => s.playingIds

/- `processQueue` (part_003 lines 142-189), one pump invocation, as its net
   effect on the state:
   * it first cancels any pending timer (lines 143-145);
   * empty queue (lines 147-155): clear the timer handle and assign
     `isInterviewComplete` from the channel-closed predicate;
   * otherwise (lines 157-188): shift the head event, append it to
     `messages`, and then either stop the currently playing audio and start
     a fresh element for the event (lines 161-182, when the event's audio is
     truthy and audio is enabled) or schedule the fixed-delay timer
     (line 187).
   The audio element's end/error continuations are the separate signal
   functions below. -/
def processQueue (s : SessionState) : SessionState :=
  match s.queue with
  | [] =>
    { s with timeoutActive := false, isInterviewComplete := s.channelClosed }
  | e :: rest =>
    if hasAudio e && s.isAudioEnabled then
      { s with queue := rest, messages := s.messages ++ [e],
               timeoutActive := false,
               playingIds := pausedIds s ++ [s.nextAudioId],
               currentAudio := some s.nextAudioId,
               nextAudioId := s.nextAudioId + 1 }
    else
      { s with queue := rest, messages := s.messages ++ [e],
               timeoutActive := true }

/- `audio.onended` (part_003 lines 169-172): the element has stopped
   playing; the ref is cleared and the pump re-invoked. -/
def audioOnEnded (s : SessionState) : SessionState :=
  match s.currentAudio with
  | none => s
  | some i =>
    processQueue { s with currentAudio := none, playingIds := s.playingIds.erase i }

/- `audio.onerror` (part_003 lines 173-177): identical continuation. -/
def audioOnError (s : SessionState) : SessionState :=
  match s.currentAudio with
  | none => s
  | some i =>
    processQueue { s with currentAudio := none, playingIds := s.playingIds.erase i }

/- `audio.play().catch(...)` (part_003 lines 178-182): identical
   continuation for a failure to start playing. -/
def audioPlayCatch (s : SessionState) : SessionState :=
  match s.currentAudio with
  | none => s
  | some i =>
    processQueue { s with currentAudio := none, playingIds := s.playingIds.erase i }

/- A parsed frame of the push channel: a ConversationEvent, the `end`
   sentinel, or a frame `JSON.parse` rejected. -/
inductive Frame where
  | msg (e : ConversationEvent)
  | endMarker
  | malformed
deriving DecidableEq

/- `eventSource.onmessage` (part_003 lines 212-231).  A closed EventSource
   delivers no messages, so the handler is the identity once the channel is
   closed.  The `end` sentinel closes the channel and pumps once; a
   well-formed event is enqueued, and the pump runs only when neither audio
   nor a timer is active; a malformed frame is logged and discarded. -/
def onFrame (s : SessionState) (f : Frame) : SessionState :=
  if s.channelClosed then s
  else
    match f with
    | .malformed => s
    | .endMarker => processQueue { s with channelClosed := true }
    | .msg e =>
      let s1 := { s with queue := s.queue ++ [e] }
      if s1.currentAudio.isNone && !s1.timeoutActive then processQueue s1 else s1

/- `eventSource.onerror` (part_003 lines 233-236): close the channel. -/
def onChanError (s : SessionState) : SessionState :=
  { s with channelClosed := true }

/- The timer continuation `setTimeout(processQueue, ...)` (part_003
   line 187): a cancelled timer never fires. -/
def onTimerFire (s : SessionState) : SessionState :=
  if s.timeoutActive then processQueue s else s

/- `handleToggleAudio` (part_003 lines 395-406): flip the flag; when
   disabling while a clip plays, stop it and clear the ref. -/
def handleToggleAudio (s : SessionState) : SessionState :=
  let enabled := !s.isAudioEnabled
  if enabled = false then
    match s.currentAudio with
    | some i =>
      { s with isAudioEnabled := enabled, currentAudio := none,
               playingIds := s.playingIds.erase i }
    | none => { s with isAudioEnabled := enabled }
  else
    { s with isAudioEnabled := enabled }

/- `handleToggleWaitTime` (part_003 lines 391-393) together with the effect
   on `[waitTime]` (part_003 lines 256-258) that re-invokes the pump. -/
def handleToggleWaitTime (s : SessionState) : SessionState :=
  processQueue { s with waitTime := if s.waitTime = 1000 then 3000 else 1000 }

/- The external signals that can reach the engine on the event loop. -/
inductive Sig where
  | frame (f : Frame)
  | timerFire
  | audioEnded
  | audioErrored
  | audioPlayFailed
  | toggleAudio
  | toggleWaitTime
  | chanError
deriving DecidableEq

def step (s : SessionState) : Sig → SessionState
  | .frame f => onFrame s f
  | .timerFire => onTimerFire s
  | .audioEnded => audioOnEnded s
  | .audioErrored => audioOnError s
  | .audioPlayFailed => audioPlayCatch s
  | .toggleAudio => handleToggleAudio s
  | .toggleWaitTime => handleToggleWaitTime s
  | .chanError => onChanError s

def run (s : SessionState) : List Sig → SessionState
  | [] => s
  | g :: tr => run (step s g) tr

/- The stream-effect setup state (part_003 lines 191-210): fresh messages,
   completion flag, queue, no audio, open channel, defaults
   `isAudioEnabled = true`, `waitTime = 3000`. -/
def initState : SessionState :=
  { messages := [], queue := [], isInterviewComplete := false,
    timeoutActive := false, currentAudio := none, playingIds := [],
    nextAudioId := 0, channelClosed := false, isAudioEnabled := true,
    waitTime := 3000 }

def Reachable (s : SessionState) : Prop :=
  ∃ tr : List Sig, run initState tr = s

/- The events a signal delivers into the queue: exactly the well-formed
   ConversationEvent frames that arrive while the channel is open. -/
def stepDelivered (s : SessionState) : Sig → List ConversationEvent
  | .frame (.msg e) => if s.channelClosed then [] else [e]
  | _ => []

def deliveredEvents (s : SessionState) : List Sig → List ConversationEvent
  | [] => []
  | g :: tr => stepDelivered s g ++ deliveredEvents (step s g) tr

/- The stream-effect cleanup (part_003 lines 239-253): close the channel,
   cancel any pending timer, stop any playing audio. -/
def cleanupSession (s : SessionState) : SessionState :=
  { s with channelClosed := true,
           timeoutActive := false,
           playingIds := pausedIds s,
           currentAudio := none }

/- The next stream-effect setup (part_003 lines 194-210): reset messages,
   completion flag and queue, stop any playing audio, open a fresh
   channel. -/
def setupSession (s : SessionState) : SessionState :=
  { s with messages := [],
           isInterviewComplete := false,
           queue := [],
           playingIds := pausedIds s,
           currentAudio := none,
           channelClosed := false }

/- ### Trace lemmas: the queue plus the displayed list tracks exactly the
   delivered events, in order. -/

theorem processQueue_append (s : SessionState) :
    (processQueue s).messages ++ (processQueue s).queue = s.messages ++ s.queue := by
  cases hq : s.queue with
  | nil => simp [processQueue, hq]
  | cons e rest =>
    by_cases ha : (hasAudio e && s.isAudioEnabled) = true <;>
      simp [processQueue, hq, ha]

theorem step_append (s : SessionState) (g : Sig) :
    (step s g).messages ++ (step s g).queue =
      s.messages ++ s.queue ++ stepDelivered s g := by
  cases g with
  | frame f =>
    cases f with
    | msg e =>
      simp only [step, onFrame, stepDelivered]
      by_cases hc : s.channelClosed = true
      · simp [hc]
      · simp only [hc, Bool.false_eq_true, if_false, if_neg]
        split
        · rw [processQueue_append]
          simp [List.append_assoc]
        · simp [List.append_assoc]
    | endMarker =>
      simp only [step, onFrame, stepDelivered]
      by_cases hc : s.channelClosed = true
      · simp [hc]
      · simp only [hc, Bool.false_eq_true, if_false, if_neg]
        rw [processQueue_append]
        simp
    | malformed =>
      by_cases hc : s.channelClosed = true <;> simp [step, onFrame, stepDelivered, hc]
  | timerFire =>
    simp only [step, onTimerFire, stepDelivered]
    split
    · rw [processQueue_append]; simp
    · simp
  | audioEnded =>
    simp only [step, audioOnEnded, stepDelivered]
    cases hca : s.currentAudio with
    | none => simp
    | some i => rw [processQueue_append]; simp
  | audioErrored =>
    simp only [step, audioOnError, stepDelivered]
    cases hca : s.currentAudio with
    | none => simp
    | some i => rw [processQueue_append]; simp
  | audioPlayFailed =>
    simp only [step, audioPlayCatch, stepDelivered]
    cases hca : s.currentAudio with
    | none => simp
    | some i => rw [processQueue_append]; simp
  | toggleAudio =>
    simp only [step, handleToggleAudio, stepDelivered]
    split
    · cases hca : s.currentAudio <;> simp
    · simp
  | toggleWaitTime =>
    simp only [step, handleToggleWaitTime, stepDelivered]
    rw [processQueue_append]
    simp
  | chanError => simp [step, onChanError, stepDelivered]

theorem run_append (s : SessionState) (tr : List Sig) :
    (run s tr).messages ++ (run s tr).queue =
      s.messages ++ s.queue ++ deliveredEvents s tr := by
  induction tr generalizing s with
  | nil => simp [run, deliveredEvents]
  | cons g tr ih =>
    simp only [run, deliveredEvents]
    rw [ih, step_append]
    simp [List.append_assoc]

/- ### Reachable-state invariants of the sequencer. -/

/- The completion flag implies a drained queue and an observed channel
   closure. -/
def CompleteInv (s : SessionState) : Prop :=
  s.isInterviewComplete = true → s.queue = [] ∧ s.channelClosed = true

/- At most one audio element is in a playing state, and a playing element is
   the one the `currentPlayingAudio` ref tracks. -/
def AudioInv (s : SessionState) : Prop :=
  s.playingIds = [] ∨ ∃ i, s.playingIds = [i] ∧ s.currentAudio = some i

def EngineInv (s : SessionState) : Prop :=
  CompleteInv s ∧ AudioInv s

theorem pausedIds_eq_nil {s : SessionState} (h : AudioInv s) : pausedIds s = [] := by
  rcases h with hp | ⟨j, hp, hc⟩
  · unfold pausedIds
    cases s.currentAudio <;> simp [hp]
  · unfold pausedIds
    rw [hc, hp]
    simp


theorem erase_current_nil {s : SessionState} {i : Nat} (h : AudioInv s)
    (hca : s.currentAudio = some i) : s.playingIds.erase i = [] := by
  rcases h with hp | ⟨j, hp, hc⟩
  · simp [hp]
  · have hji : j = i := by
      rw [hca] at hc
      exact (Option.some.inj hc).symm
    rw [hp, hji]
    simp

theorem completeInv_processQueue {s : SessionState} (h : CompleteInv s) :
    CompleteInv (processQueue s) := by
  intro hcomp
  cases hq : s.queue with
  | nil =>
    simp only [processQueue, hq] at hcomp ⊢
    exact ⟨trivial, hcomp⟩
  | cons e rest =>
    by_cases ha : (hasAudio e && s.isAudioEnabled) = true <;>
      simp only [processQueue, hq, ha, if_true, if_false, Bool.false_eq_true,
        if_neg, reduceIte] at hcomp <;>
      · rcases h hcomp with ⟨hq2, _⟩
        rw [hq] at hq2
        cases hq2

theorem audioInv_processQueue {s : SessionState} (h : AudioInv s) :
    AudioInv (processQueue s) := by
  cases hq : s.queue with
  | nil =>
    unfold AudioInv processQueue
    rw [hq]
    exact h
  | cons e rest =>
    by_cases ha : (hasAudio e && s.isAudioEnabled) = true
    · unfold AudioInv processQueue
      rw [hq]
      simp only [ha, if_true]
      rw [pausedIds_eq_nil h]
      exact Or.inr ⟨s.nextAudioId, rfl, rfl⟩
    · unfold AudioInv processQueue
      rw [hq]
      simp only [ha, Bool.false_eq_true, if_false, if_neg, reduceIte]
      exact h

theorem engineInv_processQueue {s : SessionState} (h : EngineInv s) :
    EngineInv (processQueue s) :=
  ⟨completeInv_processQueue h.1, audioInv_processQueue h.2⟩

theorem engineInv_step {s : SessionState} (g : Sig) (h : EngineInv s) :
    EngineInv (step s g) := by
  cases g with
  | frame f =>
    cases f with
    | malformed =>
      by_cases hc : s.channelClosed = true <;> simpa [step, onFrame, hc] using h
    | endMarker =>
      by_cases hc : s.channelClosed = true
      · simpa [step, onFrame, hc] using h
      · have h' : EngineInv { s with channelClosed := true } :=
          ⟨fun hcomp => ⟨(h.1 hcomp).1, rfl⟩, h.2⟩
        simpa [step, onFrame, hc] using engineInv_processQueue h'
    | msg e =>
      by_cases hc : s.channelClosed = true
      · simpa [step, onFrame, hc] using h
      · have h1 : EngineInv { s with queue := s.queue ++ [e] } :=
          ⟨fun hcomp => absurd (h.1 hcomp).2 hc, h.2⟩
        by_cases hp : (s.currentAudio.isNone && !s.timeoutActive) = true
        · simpa [step, onFrame, hc, hp] using engineInv_processQueue h1
        · simpa [step, onFrame, hc, hp] using h1
  | timerFire =>
    by_cases ht : s.timeoutActive = true
    · simpa [step, onTimerFire, ht] using engineInv_processQueue h
    · simpa [step, onTimerFire, ht] using h
  | audioEnded =>
    cases hca : s.currentAudio with
    | none => simpa [step, audioOnEnded, hca] using h
    | some i =>
      have h' : EngineInv
          { s with currentAudio := none, playingIds := s.playingIds.erase i } :=
        ⟨fun hcomp => h.1 hcomp, Or.inl (erase_current_nil h.2 hca)⟩
      simpa [step, audioOnEnded, hca] using engineInv_processQueue h'
  | audioErrored =>
    cases hca : s.currentAudio with
    | none => simpa [step, audioOnError, hca] using h
    | some i =>
      have h' : EngineInv
          { s with currentAudio := none, playingIds := s.playingIds.erase i } :=
        ⟨fun hcomp => h.1 hcomp, Or.inl (erase_current_nil h.2 hca)⟩
      simpa [step, audioOnError, hca] using engineInv_processQueue h'
  | audioPlayFailed =>
    cases hca : s.currentAudio with
    | none => simpa [step, audioPlayCatch, hca] using h
    | some i =>
      have h' : EngineInv
          { s with currentAudio := none, playingIds := s.playingIds.erase i } :=
        ⟨fun hcomp => h.1 hcomp, Or.inl (erase_current_nil h.2 hca)⟩
      simpa [step, audioPlayCatch, hca] using engineInv_processQueue h'
  | toggleAudio =>
    cases he : s.isAudioEnabled with
    | true =>
      cases hca : s.currentAudio with
      | none =>
        have h' : EngineInv { s with isAudioEnabled := false } :=
          ⟨fun hcomp => h.1 hcomp, h.2⟩
        simpa [step, handleToggleAudio, he, hca] using h'
      | some i =>
        have h' : EngineInv
            { s with isAudioEnabled := false, currentAudio := none,
                     playingIds := s.playingIds.erase i } :=
          ⟨fun hcomp => h.1 hcomp, Or.inl (erase_current_nil h.2 hca)⟩
        simpa [step, handleToggleAudio, he, hca] using h'
    | false =>
      have h' : EngineInv { s with isAudioEnabled := true } :=
        ⟨fun hcomp => h.1 hcomp, h.2⟩
      simpa [step, handleToggleAudio, he] using h'
  | toggleWaitTime =>
    have h' : EngineInv { s with waitTime := if s.waitTime = 1000 then 3000 else 1000 } :=
      ⟨fun hcomp => h.1 hcomp, h.2⟩
    simpa [step, handleToggleWaitTime] using engineInv_processQueue h'
  | chanError =>
    have h' : EngineInv { s with channelClosed := true } :=
      ⟨fun hcomp => ⟨(h.1 hcomp).1, rfl⟩, h.2⟩
    simpa [step, onChanError] using h'

theorem engineInv_run (s : SessionState) (tr : List Sig) (h : EngineInv s) :
    EngineInv (run s tr) := by
  induction tr generalizing s with
  | nil => exact h
  | cons g tr ih => exact ih (step s g) (engineInv_step g h)

theorem engineInv_init : EngineInv initState := by
  constructor
  · intro hcomp
    cases hcomp
  · exact Or.inl rfl

theorem reachable_engineInv {s : SessionState} (h : Reachable s) : EngineInv s := by
  rcases h with ⟨tr, rfl⟩
  exact engineInv_run initState tr engineInv_init

/- ### Claim theorems for the playback engine -/

/-- C1: For every finite sequence of well-formed ConversationEvents delivered
by the stream (malformed frames excluded), once the playback queue has fully
drained, the DisplayedMessages sequence (`messages`) equals that delivered
sequence in the same order: no reordering, no drops, no duplicates. -/
theorem displayed_messages_eq_delivered_after_drain (tr : List Sig)
    (h : (run initState tr).queue = []) :
    (run initState tr).messages = deliveredEvents initState tr := by
  have hmq := run_append initState tr
  rw [h, List.append_nil] at hmq
  simpa [initState] using hmq

/-- C1 witness: a concrete session — two well-formed no-audio events, two
timer expiries, then the end sentinel — drains the queue and displays exactly
the two delivered events in order. -/
theorem displayed_messages_eq_delivered_after_drain_witness :
    (run initState [Sig.frame (Frame.msg ⟨"interviewer", "Hello", none⟩),
        Sig.frame (Frame.msg ⟨"patient", "Hi", none⟩),
        Sig.timerFire, Sig.timerFire, Sig.frame Frame.endMarker]).queue = []
    ∧ (run initState [Sig.frame (Frame.msg ⟨"interviewer", "Hello", none⟩),
        Sig.frame (Frame.msg ⟨"patient", "Hi", none⟩),
        Sig.timerFire, Sig.timerFire, Sig.frame Frame.endMarker]).messages =
      deliveredEvents initState [Sig.frame (Frame.msg ⟨"interviewer", "Hello", none⟩),
        Sig.frame (Frame.msg ⟨"patient", "Hi", none⟩),
        Sig.timerFire, Sig.timerFire, Sig.frame Frame.endMarker] :=
  ⟨by decide, displayed_messages_eq_delivered_after_drain _ (by decide)⟩

/-- C2: In every reachable state of the sequencer, `isInterviewComplete` is
false whenever the playback queue is non-empty (whatever the channel state);
it is true only in a state with an empty queue and an observed channel
closure; and a pump invocation that finds the queue empty re-assigns it from
the channel-closed predicate rather than setting it unconditionally. -/
theorem isComplete_iff_drained_and_closed {s : SessionState} (h : Reachable s) :
    (s.queue ≠ [] → s.isInterviewComplete = false)
    ∧ (s.isInterviewComplete = true → s.queue = [] ∧ s.channelClosed = true)
    ∧ (s.queue = [] → (processQueue s).isInterviewComplete = s.channelClosed) := by
  have hi := (reachable_engineInv h).1
  refine ⟨?_, hi, ?_⟩
  · intro hq
    cases hcomp : s.isInterviewComplete with
    | false => rfl
    | true => exact absurd (hi hcomp).1 hq
  · intro hq
    simp [processQueue, hq]

/-- C2 witness: after one displayed event and one still-queued event the
completion flag is false. -/
theorem isComplete_iff_drained_and_closed_witness :
    (run initState [Sig.frame (Frame.msg ⟨"interviewer", "Hello", none⟩),
        Sig.frame (Frame.msg ⟨"patient", "Hi", none⟩)]).isInterviewComplete = false :=
  (isComplete_iff_drained_and_closed ⟨_, rfl⟩).1 (by decide)

/-- C3: For every event released by the pump, exactly one pacing mechanism is
used: when the event carries truthy audio and audio is enabled at release, a
fresh audio element is started and no timer is scheduled; otherwise the
fixed-delay timer is scheduled and no audio element is started. -/
theorem pacing_mutually_exclusive (s : SessionState) (e : ConversationEvent)
    (rest : List ConversationEvent) (hq : s.queue = e :: rest) :
    ((hasAudio e && s.isAudioEnabled) = true →
       (processQueue s).currentAudio = some s.nextAudioId
       ∧ (processQueue s).timeoutActive = false)
    ∧ ((hasAudio e && s.isAudioEnabled) = false →
       (processQueue s).timeoutActive = true
       ∧ (processQueue s).currentAudio = s.currentAudio
       ∧ (processQueue s).playingIds = s.playingIds) := by
  constructor <;> intro ha <;> simp [processQueue, hq, ha]

/-- C3 witness: an audio event paces by a fresh audio element; a no-audio
event paces by the timer. -/
theorem pacing_mutually_exclusive_witness :
    (processQueue { initState with
        queue := [⟨"patient", "Hi", some "data:audio/wav;base64,x"⟩] }).currentAudio = some 0
    ∧ (processQueue { initState with
        queue := [⟨"interviewer", "Hello", none⟩] }).timeoutActive = true :=
  ⟨((pacing_mutually_exclusive _ ⟨"patient", "Hi", some "data:audio/wav;base64,x"⟩ []
      rfl).1 (by decide)).1,
   ((pacing_mutually_exclusive _ ⟨"interviewer", "Hello", none⟩ []
      rfl).2 (by decide)).1⟩

/-- C4: In every reachable state at most one audio element is in a playing
state; and when the pump starts audio for a newly released event it first
stops and releases the tracked playing element, so the playing set after the
start is exactly the one fresh element. -/
theorem at_most_one_audio_playing {s : SessionState} (h : Reachable s) :
    s.playingIds.length ≤ 1
    ∧ (∀ e rest, s.queue = e :: rest → (hasAudio e && s.isAudioEnabled) = true →
        (processQueue s).playingIds = [s.nextAudioId]) := by
  have hi := (reachable_engineInv h).2
  constructor
  · rcases hi with hp | ⟨i, hp, _⟩ <;> simp [hp]
  · intro e rest hq ha
    simp [processQueue, hq, ha, pausedIds_eq_nil hi]

/-- C4 witness: in a reachable state with one clip playing and an audio event
queued, pumping yields exactly one playing element — the fresh one. -/
theorem at_most_one_audio_playing_witness :
    (processQueue (run initState
        [Sig.frame (Frame.msg ⟨"interviewer", "Hello", some "u"⟩),
         Sig.frame (Frame.msg ⟨"patient", "Hi", some "v"⟩)])).playingIds =
      [(run initState
        [Sig.frame (Frame.msg ⟨"interviewer", "Hello", some "u"⟩),
         Sig.frame (Frame.msg ⟨"patient", "Hi", some "v"⟩)]).nextAudioId] :=
  (at_most_one_audio_playing ⟨_, rfl⟩).2 ⟨"patient", "Hi", some "v"⟩ [] (by decide) (by decide)

/-- C5: audio playback failure (the element's error event) and failure to
start playing (the rejected play() promise) have the very same continuation
as natural audio completion; in particular, after any of them the pump runs
and the next queued event is released, so the queue does not stall. -/
theorem audio_failure_equals_completion (s : SessionState) :
    audioOnError s = audioOnEnded s
    ∧ audioPlayCatch s = audioOnEnded s
    ∧ (∀ i e rest, s.currentAudio = some i → s.queue = e :: rest →
        (audioOnError s).messages = s.messages ++ [e]
        ∧ (audioOnError s).queue = rest) := by
  refine ⟨rfl, rfl, ?_⟩
  intro i e rest hca hq
  by_cases ha : (hasAudio e && s.isAudioEnabled) = true <;>
    simp [audioOnError, hca, processQueue, hq, ha]

/-- C5 witness: with a clip playing and one queued event, the error
continuation releases that event. -/
theorem audio_failure_equals_completion_witness :
    (audioOnError { initState with
                    currentAudio := some 0, playingIds := [0],
                    queue := [⟨"patient", "Hi", none⟩] }).messages =
      [⟨"patient", "Hi", none⟩] :=
  ((audio_failure_equals_completion { initState with
                                      currentAudio := some 0, playingIds := [0],
                                      queue := [⟨"patient", "Hi", none⟩] }).2.2 0
    ⟨"patient", "Hi", none⟩ [] rfl rfl).1.trans (by decide)

/-- C9: on session teardown the channel is closed, any pending fixed-delay
timer is cancelled and any playing audio is stopped, and the replacement
session setup resets the playback queue, the displayed-messages list and the
completion flag to their empty initial values. -/
theorem teardown_resets_session {s : SessionState} (h : Reachable s) :
    (cleanupSession s).channelClosed = true
    ∧ (cleanupSession s).timeoutActive = false
    ∧ (cleanupSession s).playingIds = []
    ∧ (cleanupSession s).currentAudio = none
    ∧ (setupSession (cleanupSession s)).queue = []
    ∧ (setupSession (cleanupSession s)).messages = []
    ∧ (setupSession (cleanupSession s)).isInterviewComplete = false := by
  have hi := (reachable_engineInv h).2
  exact ⟨rfl, rfl, pausedIds_eq_nil hi, rfl, rfl, rfl, rfl⟩

/-- C9 witness: teardown of the initial session state. -/
theorem teardown_resets_session_witness :
    (cleanupSession initState).channelClosed = true
    ∧ (setupSession (cleanupSession initState)).messages = [] :=
  ⟨(teardown_resets_session ⟨[], rfl⟩).1,
   (teardown_resets_session ⟨[], rfl⟩).2.2.2.2.2.1⟩


/- ### Diff identity lemmas (for the equal-revision case) -/

theorem diffOpsAux_self {α : Type} [DecidableEq α] (fuel : Nat) (l : List α)
    (h : l.length ≤ fuel) : diffOpsAux fuel l l = l.map DiffOp.keep := by
  induction fuel generalizing l with
  | zero =>
    cases l with
    | nil => rfl
    | cons a as => simp at h
  | succ fuel ih =>
    cases l with
    | nil => rfl
    | cons a as =>
      have h' : as.length ≤ fuel := by
        simpa [Nat.succ_le_succ_iff] using h
      simp [diffOpsAux, ih as h']

theorem diffOps_self {α : Type} [DecidableEq α] (l : List α) :
    diffOps l l = l.map DiffOp.keep :=
  diffOpsAux_self (l.length + l.length) l (by omega)

theorem groupOps_cons {α : Type} (op : DiffOp α) (rest : List (DiffOp α)) :
    groupOps (op :: rest) =
      match groupOps rest with
      | [] => [opHunk op]
      | h :: t =>
        if (opHunk op).added = h.added ∧ (opHunk op).removed = h.removed then
          ⟨(opHunk op).value ++ h.value, h.added, h.removed⟩ :: t
        else
          opHunk op :: h :: t := rfl

theorem groupOps_map_keep {α : Type} (a : α) (l : List α) :
    groupOps ((a :: l).map DiffOp.keep) = [⟨a :: l, false, false⟩] := by
  induction l generalizing a with
  | nil => rfl
  | cons b l ih =>
    rw [List.map_cons, groupOps_cons, ih b]
    simp [opHunk]

theorem renderDiffParts_unchanged (l : List String) :
    renderDiffParts [⟨l, false, false⟩] = String.join l := by
  simp [renderDiffParts]

/- ### Claim theorems for the diff routine -/

/-- C6 counterexample: the claim that `computeDiff(html, html)` returns the
input unchanged for every HTML string fails at the string "a< b" (valid HTML
character data: a literal `<` followed by a space): the tokenizer regex
skips the lone `<`, so the identical-revision diff returns "a b". -/
theorem computeDiff_identity_counterexample :
    getDiffReport "a< b" "a< b" ≠ "a< b" := by decide

/-- C6 (amended): for every HTML string whose tag/text tokenization loses no
characters (the tokens rejoin to the string — in particular every `<` opens
a complete `<...>` tag), `computeDiff(html, html)` returns the input
unchanged, with no added or removed spans. -/
theorem computeDiff_identity_of_lossless_tokenization (html : String)
    (h : String.join (tokenizeHTML html) = html) :
    getDiffReport html html = html := by
  have h2 : getDiffReport html html = String.join (tokenizeHTML html) := by
    unfold getDiffReport diffArrays
    rw [diffOps_self]
    cases heq : tokenizeHTML html with
    | nil => rfl
    | cons a l => rw [groupOps_map_keep, renderDiffParts_unchanged]
  rw [h2, h]

/-- C6 witness: the tokenization of "<p>A</p>" is lossless and the
identical-revision diff returns it unchanged. -/
theorem computeDiff_identity_of_lossless_tokenization_witness :
    String.join (tokenizeHTML "<p>A</p>") = "<p>A</p>"
    ∧ getDiffReport "<p>A</p>" "<p>A</p>" = "<p>A</p>" :=
  ⟨by decide, computeDiff_identity_of_lossless_tokenization "<p>A</p>" (by decide)⟩

/-- C7: `computeDiff("<p>A</p>", "<p>B</p>")` wraps "A" in a removed-class
span and "B" in an added-class span while the `<p>`/`</p>` tag tokens pass
through unwrapped as unchanged runs. -/
theorem computeDiff_wraps_changed_text :
    getDiffReport "<p>A</p>" "<p>B</p>" =
      "<p><span class=\"remove\">A</span><span class=\"add\">B</span></p>" := by
  decide

/- ### Trim lemmas for the report tracker -/

theorem dropWhile_head_false {α : Type} (p : α → Bool) (l : List α) (c : α)
    (cs : List α) (h : l.dropWhile p = c :: cs) : p c = false := by
  induction l with
  | nil => cases h
  | cons a as ih =>
    rw [List.dropWhile_cons] at h
    by_cases hp : p a = true
    · rw [if_pos hp] at h
      exact ih h
    · rw [if_neg hp] at h
      cases h
      simpa using hp

theorem trimRightWs_cons (c : Char) (cs : List Char) :
    trimRightWs (c :: cs) =
      match trimRightWs cs with
      | [] => if isJsWs c then [] else [c]
      | r => c :: r := rfl

theorem trimRightWs_idem (l : List Char) :
    trimRightWs (trimRightWs l) = trimRightWs l := by
  induction l with
  | nil => rfl
  | cons c cs ih =>
    cases hr : trimRightWs cs with
    | nil =>
      by_cases hw : isJsWs c = true
      · simp [trimRightWs_cons, hr, hw, trimRightWs]
      · simp [trimRightWs_cons, hr, hw, trimRightWs]
    | cons x xs =>
      have h1 : trimRightWs (c :: cs) = c :: x :: xs := by
        rw [trimRightWs_cons, hr]
      rw [h1]
      rw [hr] at ih
      rw [trimRightWs_cons, ih]

theorem dropWhile_trimRight_of_head {c : Char} {cs : List Char}
    (hc : isJsWs c = false) :
    (trimRightWs (c :: cs)).dropWhile isJsWs = trimRightWs (c :: cs) := by
  rw [trimRightWs_cons]
  cases hr : trimRightWs cs with
  | nil => simp [hc, List.dropWhile_cons]
  | cons x xs => simp [hc, List.dropWhile_cons]

theorem jsTrim_idem (l : List Char) : jsTrim (jsTrim l) = jsTrim l := by
  unfold jsTrim
  cases hy : l.dropWhile isJsWs with
  | nil => rfl
  | cons c cs =>
    have hc : isJsWs c = false := dropWhile_head_false isJsWs l c cs hy
    rw [dropWhile_trimRight_of_head hc, trimRightWs_idem]

theorem jsTrimStr_idem (s : String) : jsTrimStr (jsTrimStr s) = jsTrimStr s :=
  congrArg String.mk (jsTrim_idem s.data)

/- ### Claim theorems for the report revision tracker -/

/-- C8: the revision pair shifts exactly when the most recent report-speaker
event renders to HTML different from the stored current value: then previous
takes the old current and current takes the new rendering; when the rendering
equals the stored current value, or when there is no report-speaker event,
the pair is unchanged. -/
theorem report_revision_update_rule (md : String → String)
    (msgs : List ConversationEvent) (cur prev : String) :
    (lastReportMessage msgs = none → reportUpdate md msgs cur prev = (cur, prev))
    ∧ (∀ m, lastReportMessage msgs = some m →
        (renderReport md m.text = cur → reportUpdate md msgs cur prev = (cur, prev))
        ∧ (renderReport md m.text ≠ cur →
            reportUpdate md msgs cur prev = (renderReport md m.text, cur))) := by
  constructor
  · intro h
    simp [reportUpdate, h]
  · intro m hm
    constructor <;> intro hr <;> simp [reportUpdate, hm, hr]

/-- C8 witness: a fresh report event whose rendering differs from the stored
current value shifts the pair. -/
theorem report_revision_update_rule_witness :
    reportUpdate (fun s => s) [⟨"report", "R1", none⟩] "" "x" = ("R1", "") :=
  ((report_revision_update_rule (fun s => s) [⟨"report", "R1", none⟩] "" "x").2
      ⟨"report", "R1", none⟩ (by decide)).2 (by decide)

/-- C10: the tracker trims the report text before rendering, so rendering is
invariant under trimming; two report texts equal up to leading/trailing
whitespace render identically, and appending such a report event when its
rendering is already the stored current value leaves the revision pair
unchanged. -/
theorem report_trim_no_shift (md : String → String) (t1 t2 : String)
    (msgs : List ConversationEvent) (prev : String) (a : Option String)
    (h : jsTrimStr t1 = jsTrimStr t2) :
    renderReport md t1 = renderReport md (jsTrimStr t1)
    ∧ renderReport md t1 = renderReport md t2
    ∧ reportUpdate md (msgs ++ [⟨"report", t2, a⟩]) (renderReport md t1) prev =
        (renderReport md t1, prev) := by
  have h1 : renderReport md t1 = renderReport md (jsTrimStr t1) := by
    unfold renderReport
    rw [jsTrimStr_idem]
  have h2 : renderReport md t1 = renderReport md t2 := by
    unfold renderReport
    rw [h]
  refine ⟨h1, h2, ?_⟩
  have hlast : lastReportMessage (msgs ++ [⟨"report", t2, a⟩]) =
      some ⟨"report", t2, a⟩ := by
    unfold lastReportMessage
    rw [List.filter_append]
    simp
  simp [reportUpdate, hlast, ← h2]

/-- C10 witness: " R " and "R" render identically, and a second report event
padded with whitespace does not shift the pair. -/
theorem report_trim_no_shift_witness :
    reportUpdate (fun s => s) [⟨"report", " R ", none⟩]
        (renderReport (fun s => s) "R") "" = (renderReport (fun s => s) "R", "") :=
  (report_trim_no_shift (fun s => s) "R" " R " [] "" none (by decide)).2.2
